import Mathlib

/-!
Shallow embedding of `src/app.py` (expense-tracker-api), a Flask/SQLAlchemy
personal-finance REST API, together with proofs about the embedded
operations.

Conventions of the embedding:
* calendar dates (`datetime.date`) are triples of naturals; `d - timedelta(days=k)`
  is `subDays d k` (iterated predecessor), `date.weekday()` is computed from the
  proleptic-Gregorian ordinal exactly as CPython does;
* the SQLAlchemy tables are lists of records; `Expense.query.all()` is the list
  itself, `Expense.query.get(id)` is `List.find?` on the primary key;
* Python exceptions that escape a handler are modelled with `Except`:
  `Except.error` marks a request that crashes instead of answering;
* pandas date filtering (`df.loc[(df["date"] >= a) & (df["date"] <= b)]`)
  is `List.filter` with the calendar order on dates.
-/

namespace ExpenseApi

/-! ### Calendar dates (`datetime.date`) -/

/-- A calendar date `(year, month, day)`, as in Python's `datetime.date`. -/
structure Date where
  year : Nat
  month : Nat
  day : Nat
deriving DecidableEq

/-- Gregorian leap-year test, as in `calendar.isleap`. -/
def isLeap (y : Nat) : Bool :=
  (y % 4 == 0 && y % 100 != 0) || y % 400 == 0

/-- Number of days of month `m` of year `y` (months numbered 1-12). -/
def daysInMonth (y m : Nat) : Nat :=
  if m = 2 then (if isLeap y then 29 else 28)
  else if m = 4 ∨ m = 6 ∨ m = 9 ∨ m = 11 then 30
  else 31

/-- A `Date` that `datetime.date` would accept (year at least 1, month 1-12,
day within the month). -/
def Date.Valid (d : Date) : Prop :=
  1 ≤ d.year ∧ 1 ≤ d.month ∧ d.month ≤ 12 ∧ 1 ≤ d.day ∧ d.day ≤ daysInMonth d.year d.month

instance (d : Date) : Decidable d.Valid := by
  unfold Date.Valid; infer_instance

/-- Chronological (lexicographic) order on dates: `a ≤ b`. This is the
comparison pandas/`datetime.date` use on calendar dates. -/
def dateLe (a b : Date) : Prop :=
  a.year < b.year ∨ (a.year = b.year ∧
    (a.month < b.month ∨ (a.month = b.month ∧ a.day ≤ b.day)))

instance (a b : Date) : Decidable (dateLe a b) := by
  unfold dateLe; infer_instance

/-- Strict chronological order on dates. -/
def dateLt (a b : Date) : Prop :=
  a.year < b.year ∨ (a.year = b.year ∧
    (a.month < b.month ∨ (a.month = b.month ∧ a.day < b.day)))

instance (a b : Date) : Decidable (dateLt a b) := by
  unfold dateLt; infer_instance

/-- The day before `d` (what `d - timedelta(days=1)` returns). -/
def predDay (d : Date) : Date :=
  if 2 ≤ d.day then ⟨d.year, d.month, d.day - 1⟩
  else if 2 ≤ d.month then ⟨d.year, d.month - 1, daysInMonth d.year (d.month - 1)⟩
  else ⟨d.year - 1, 12, 31⟩

/-- `d - timedelta(days=n)` as iterated predecessor. -/
def subDays (d : Date) : Nat → Date
  | 0 => d
  | n + 1 => subDays (predDay d) n

/-- Days before January 1 of year `y` in the proleptic Gregorian calendar
(the `_days_before_year` helper of CPython's `datetime`). -/
def daysBeforeYear (y : Nat) : Nat :=
  365 * (y - 1) + (y - 1) / 4 - (y - 1) / 100 + (y - 1) / 400

/-- Cumulative day count before month `m` in a non-leap year. -/
def cumDays (m : Nat) : Nat :=
  match m with
  | 1 => 0 | 2 => 31 | 3 => 59 | 4 => 90 | 5 => 120 | 6 => 151
  | 7 => 181 | 8 => 212 | 9 => 243 | 10 => 273 | 11 => 304 | 12 => 334
  | _ => 365

/-- Days before month `m` of year `y` (`_days_before_month` in CPython). -/
def daysBeforeMonth (y m : Nat) : Nat :=
  cumDays m + (if 3 ≤ m ∧ isLeap y = true then 1 else 0)

/-- `date.toordinal()`: day count with January 1 of year 1 as day 1. -/
def toOrdinal (d : Date) : Nat :=
  daysBeforeYear d.year + daysBeforeMonth d.year d.month + d.day

/-- `date.weekday()`: Monday = 0, ..., Sunday = 6. -/
def weekday (d : Date) : Nat :=
  (toOrdinal d + 6) % 7

/-! ### Data model: the `user`, `category` and `expense` tables -/

/-- A row of the `expense` table, joined with its category's name
(`expense.category.name`) the way every endpoint serializes it. The `amount`
column is a string (`db.String(90)`), stored verbatim. -/
structure Expense where
  id : Nat
  date : Date
  description : String
  amount : String
  userId : Nat
  category : String
deriving DecidableEq

/-- A row of the `user` table; `passwordHash` is the value produced by
`generate_password_hash`. The `email` column carries `unique=True`. -/
structure User where
  id : Nat
  name : String
  email : String
  passwordHash : String
deriving DecidableEq

/-- A row of the `category` table (`name` carries `unique=True`). -/
structure Category where
  id : Nat
  name : String
deriving DecidableEq

/-! ### Query/aggregation layer -/

/-- Outcome of a read endpoint: either a JSON list of records or a JSON
message body (the code's `jsonify({"message": ...})` answers). -/
inductive QueryResp where
  | records (xs : List Expense)
  | message (s : String)
deriving DecidableEq

/-- The expense records an answer carries (none for a message body). -/
def QueryResp.toRecords : QueryResp → List Expense
  | records xs => xs
  | message _ => []

/-- `POST /expenses` (the `custom_date` route, by-range query). The code
builds a DataFrame from every row of the ledger and filters
`(df["date"] >= start) & (df["date"] <= end)`, both bounds inclusive, with no
per-owner filtering. On an empty ledger `pd.DataFrame([])` has no columns, so
the assignment `df["date"] = pd.to_datetime(df["date"], ...)` raises
`KeyError`, which escapes the handler: modelled as `Except.error`. -/
def custom_date (start finish : Date) (ledger : List Expense) :
    Except String (List Expense) :=
  if ledger.isEmpty then
    Except.error "KeyError: date"
  else
    Except.ok (ledger.filter (fun r =>
      decide (dateLe start r.date) && decide (dateLe r.date finish)))

/-- `today - timedelta(days=today.weekday())` (src/app.py line 199). -/
def start_of_this_week (today : Date) : Date :=
  subDays today (weekday today)

/-- `start_of_this_week - timedelta(weeks=1)` (line 200). -/
def prev_week_start (today : Date) : Date :=
  subDays (start_of_this_week today) 7

/-- `start_of_this_week - timedelta(days=1)` (line 201). -/
def prev_week_end (today : Date) : Date :=
  subDays (start_of_this_week today) 1

/-- The filtered frame of `past_week` (lines 203-204):
`df.loc[(df["date"] >= prev_week_start) & (df["date"] <= prev_week_end)]`. -/
def week_window_filter (today : Date) (ledger : List Expense) : List Expense :=
  ledger.filter (fun r =>
    decide (dateLe (prev_week_start today) r.date) &&
      decide (dateLe r.date (prev_week_end today)))

/-- `GET /expense/week` (`past_week`, lines 183-208): inclusive filter between
`prev_week_start` and `prev_week_end`; a message body when the ledger or the
filtered frame is empty. -/
def past_week (today : Date) (ledger : List Expense) : QueryResp :=
  if ledger.isEmpty then QueryResp.message "expense not found"
  else if (week_window_filter today ledger).isEmpty then
    QueryResp.message "expense past week not found"
  else QueryResp.records (week_window_filter today ledger)

/-- `today - timedelta(days=today.day)` (line 226). -/
def prev_month_end (today : Date) : Date :=
  subDays today today.day

/-- `(today - timedelta(days=today.day)).replace(day=1)` (line 225). -/
def prev_month_start (today : Date) : Date :=
  ⟨(prev_month_end today).year, (prev_month_end today).month, 1⟩

/-- The filtered frame of `past_month` (lines 228-229). -/
def month_window_filter (today : Date) (ledger : List Expense) : List Expense :=
  ledger.filter (fun r =>
    decide (dateLe (prev_month_start today) r.date) &&
      decide (dateLe r.date (prev_month_end today)))

/-- `GET /expense/month` (`past_month`, lines 210-233): inclusive filter
between `prev_month_start` and `prev_month_end`; a message body when the
ledger or the filtered frame is empty. -/
def past_month (today : Date) (ledger : List Expense) : QueryResp :=
  if ledger.isEmpty then QueryResp.message "expense not found"
  else if (month_window_filter today ledger).isEmpty then
    QueryResp.message "expense past month not found"
  else QueryResp.records (month_window_filter today ledger)

/-! ### Amount parsing and totals -/

/-- `s.replace("$", "")`: removes every `$` character of the string. -/
def stripDollar (s : String) : String :=
  String.mk (s.toList.filter (fun c => c ≠ '$'))

/-- Value of an all-digit character list read left to right. -/
def digitsValAux (acc : Nat) : List Char → Nat
  | [] => acc
  | c :: cs => digitsValAux (acc * 10 + (c.toNat - 48)) cs

/-- Python `int(s)` on an optionally signed decimal literal; `none` models the
`ValueError` Python raises on anything else. (CPython additionally tolerates
surrounding whitespace and `_` separators; such amounts are equally outside
the `"$" ++ integer` format and stay unparsed here.) -/
def pyInt (s : String) : Option Int :=
  match s.toList with
  | [] => none
  | '-' :: rest =>
    if rest ≠ [] ∧ rest.all Char.isDigit then some (-(digitsValAux 0 rest : Int))
    else none
  | '+' :: rest =>
    if rest ≠ [] ∧ rest.all Char.isDigit then some ((digitsValAux 0 rest : Int))
    else none
  | l =>
    if l.all Char.isDigit then some ((digitsValAux 0 l : Int))
    else none

/-- `int(amount.replace("$", ""))` (line 264). -/
def parseAmount (s : String) : Option Int :=
  pyInt (stripDollar s)

/-- The running sum of `total()`'s loop; `none` models the `ValueError`
crash on the first amount `int()` cannot parse. -/
def sumAmounts : List Expense → Option Int
  | [] => some 0
  | e :: rest =>
    match parseAmount e.amount, sumAmounts rest with
    | some a, some t => some (a + t)
    | _, _ => none

/-- `GET /expense/total` (lines 258-265): the `{"total": f"${total}"}` body. -/
def total (ledger : List Expense) : Option String :=
  (sumAmounts ledger).map (fun t => "$" ++ toString t)

/-- `date.strftime("%B")`: the English month name. -/
def monthName : Nat → String
  | 1 => "January" | 2 => "February" | 3 => "March" | 4 => "April"
  | 5 => "May" | 6 => "June" | 7 => "July" | 8 => "August"
  | 9 => "September" | 10 => "October" | 11 => "November" | 12 => "December"
  | _ => ""

/-- `"".join(dict.fromkeys(month))` iterates over the CHARACTERS of the
accumulated string, keeping the first occurrence of each character. -/
def dedupCharsAux (seen : List Char) : List Char → List Char
  | [] => []
  | c :: cs =>
    if c ∈ seen then dedupCharsAux seen cs
    else c :: dedupCharsAux (c :: seen) cs

/-- Character-level deduplication keeping first occurrences. -/
def dedupStr (s : String) : String :=
  String.mk (dedupCharsAux [] s.toList)

/-- `n` copies of `s` concatenated (the shape `month` takes after the loop). -/
def strRepeat (s : String) : Nat → String
  | 0 => ""
  | n + 1 => s ++ strRepeat s n

/-- The loop of `total_by_month` (lines 270-277): for each record whose month
is `m`, add the parsed amount and append the month's name to the accumulator;
records of other months are skipped unparsed. -/
def totalByMonthAux (m : Nat) : List Expense → Option (Int × String)
  | [] => some (0, "")
  | e :: rest =>
    if e.date.month = m then
      match parseAmount e.amount, totalByMonthAux m rest with
      | some a, some p => some (a + p.1, monthName e.date.month ++ p.2)
      | _, _ => none
    else totalByMonthAux m rest

/-- `GET /expense/total/<id>` (`total_by_month`, lines 267-278): the summary
string `f"Total expense for {dedup}: ${total}"`. -/
def total_by_month (m : Nat) (ledger : List Expense) : Option String :=
  (totalByMonthAux m ledger).map (fun p =>
    "Total expense for " ++ dedupStr p.2 ++ ": $" ++ toString p.1)

/-! ### Credential store -/

/-- Failure of a `db.session.commit()` that violates a `unique=True` column
constraint (SQLAlchemy raises an integrity error and the row is not stored). -/
inductive DbError where
  | uniqueViolation
deriving DecidableEq

/-- `POST /register` (lines 52-63). `hash` stands for
`generate_password_hash`. The route inserts the new user and commits without
any pre-check; the `unique=True` constraint on `User.email` (line 26) makes
the commit of a duplicate email fail, so no second user with that email is
ever stored. On success the answer is a token encoding the new user's id. -/
def register (hash : String → String) (name email password : String)
    (users : List User) (newId : Nat) : Except DbError (Nat × List User) :=
  if users.any (fun u => u.email == email) then
    Except.error DbError.uniqueViolation
  else
    Except.ok (newId, users ++ [⟨newId, name, email, hash password⟩])

/-- The two answers `POST /login` can produce without crashing. -/
inductive LoginResp where
  | token (uid : Nat)
  | invalid
deriving DecidableEq

/-- `POST /login` (lines 65-76). `checkPassword` stands for
`check_password_hash`. The code looks the user up by email and immediately
evaluates `user.id` to build a token: when the email is absent the lookup is
`None`, `user.id` raises `AttributeError`, and the request crashes
(`Except.error`). When the user exists, a wrong password yields the
`"email or password is invalid"` body, modelled as `LoginResp.invalid`. -/
def login (checkPassword : String → String → Bool) (email password : String)
    (users : List User) : Except String LoginResp :=
  match users.find? (fun u => u.email == email) with
  | none => Except.error "AttributeError: NoneType has no attribute id"
  | some u =>
    if checkPassword u.passwordHash password then Except.ok (LoginResp.token u.id)
    else Except.ok LoginResp.invalid

/-! ### Mutating the ledger -/

/-- Answers of `PUT /expense/<id>`. -/
inductive UpdateResp where
  | notFound
  | forbidden
  | updated (e : Expense)
deriving DecidableEq

/-- `PUT /expense/<id>` (`update`, lines 103-127). `Expense.query.get(id)` is
primary-key lookup (ids are unique, so `find?` on `id`). A missing record
answers the `"Expense not found"` body; a caller who is not the owner answers
the `"Forbbiden"` message before anything is read or written; otherwise only
`description` and `amount` are overwritten. -/
def update (userId eid : Nat) (desc amt : String)
    (ledger : List Expense) : UpdateResp × List Expense :=
  match ledger.find? (fun e => e.id == eid) with
  | none => (UpdateResp.notFound, ledger)
  | some e =>
    if e.userId ≠ userId then (UpdateResp.forbidden, ledger)
    else
      (UpdateResp.updated { e with description := desc, amount := amt },
        ledger.map (fun x =>
          if x.id == eid then { x with description := desc, amount := amt } else x))

/-- Answers of `DELETE /expenses/<id>`. -/
inductive DeleteResp where
  | notFound
  | forbidden
  | success
deriving DecidableEq

/-- `DELETE /expenses/<id>` (`delete`, lines 129-143): same lookup and
ownership check as `update` (the forbidden answer carries the 403 status);
on success the row is removed. -/
def delete (userId eid : Nat) (ledger : List Expense) :
    DeleteResp × List Expense :=
  match ledger.find? (fun e => e.id == eid) with
  | none => (DeleteResp.notFound, ledger)
  | some e =>
    if e.userId ≠ userId then (DeleteResp.forbidden, ledger)
    else (DeleteResp.success, ledger.filter (fun x => x.id != eid))

/-- The mutable application state the expense routes touch. -/
structure AppState where
  categories : List Category
  expenses : List Expense
  nextCategoryId : Nat
  nextExpenseId : Nat
deriving DecidableEq

/-- `POST /expense` (`add`, lines 78-101). Validation only requires the
`description`, `amount` and `category` fields to be present: the amount
string is stored verbatim, never parsed or shape-checked. The category is
looked up by exact name and created when absent. The stored date is the
`default=datetime.now()` column default (evaluated once at start-up), passed
in here as `creationDate`. -/
def add (userId : Nat) (creationDate : Date) (desc amt cat : String)
    (st : AppState) : Expense × AppState :=
  match st.categories.find? (fun c => c.name == cat) with
  | some c =>
    let e : Expense := ⟨st.nextExpenseId, creationDate, desc, amt, userId, c.name⟩
    (e, { st with expenses := st.expenses ++ [e],
                  nextExpenseId := st.nextExpenseId + 1 })
  | none =>
    let e : Expense := ⟨st.nextExpenseId, creationDate, desc, amt, userId, cat⟩
    (e, { st with categories := st.categories ++ [⟨st.nextCategoryId, cat⟩],
                  expenses := st.expenses ++ [e],
                  nextCategoryId := st.nextCategoryId + 1,
                  nextExpenseId := st.nextExpenseId + 1 })


/-! ### Arithmetic facts about the calendar -/

theorem isLeap_iff (y : Nat) :
    isLeap y = true ↔ ((y % 4 = 0 ∧ ¬ y % 100 = 0) ∨ y % 400 = 0) := by
  simp [isLeap, Bool.or_eq_true, Bool.and_eq_true, beq_iff_eq, bne_iff_ne]

theorem daysInMonth_pos (y m : Nat) : 1 ≤ daysInMonth y m := by
  unfold daysInMonth
  split
  · split <;> omega
  · split <;> omega

set_option maxHeartbeats 1000000 in
theorem daysBeforeYear_succ (y : Nat) (hy : 1 ≤ y) :
    daysBeforeYear (y + 1) =
      daysBeforeYear y + 365 + (if isLeap y = true then 1 else 0) := by
  obtain ⟨z, rfl⟩ : ∃ z, y = z + 1 := ⟨y - 1, by omega⟩
  unfold daysBeforeYear
  simp only [Nat.add_sub_cancel]
  by_cases h : isLeap (z + 1) = true
  · rw [if_pos h]
    rw [isLeap_iff] at h
    omega
  · rw [if_neg h]
    have h' : ¬ (((z + 1) % 4 = 0 ∧ ¬ (z + 1) % 100 = 0) ∨ (z + 1) % 400 = 0) := by
      rw [← isLeap_iff]; exact h
    omega

theorem daysBeforeMonth_add_daysInMonth (y m : Nat) (h1 : 1 ≤ m) (h12 : m ≤ 11) :
    daysBeforeMonth y m + daysInMonth y m = daysBeforeMonth y (m + 1) := by
  rcases Classical.em (isLeap y = true) with h | h <;>
    (interval_cases m <;> simp [daysBeforeMonth, cumDays, daysInMonth, h])

theorem daysBeforeYear_one : daysBeforeYear 1 = 0 := by
  unfold daysBeforeYear; omega

theorem daysBeforeYear_ge (y : Nat) (hy : 2 ≤ y) : 365 ≤ daysBeforeYear y := by
  unfold daysBeforeYear
  have e100 := Nat.div_add_mod (y - 1) 100
  have l100 : (y - 1) % 100 < 100 := Nat.mod_lt _ (by omega)
  have e4 := Nat.div_add_mod (y - 1) 4
  have l4 : (y - 1) % 4 < 4 := Nat.mod_lt _ (by omega)
  generalize h100 : (y - 1) / 100 = q100 at *
  generalize h4 : (y - 1) / 4 = q4 at *
  have hqq : q100 ≤ q4 := by omega
  have hb : 365 ≤ 365 * (y - 1) + q4 - q100 := by
    have h1 : 365 ≤ 365 * (y - 1) := by omega
    omega
  omega

/-- Projection-free statement of `Date.Valid` on an explicit triple. -/
theorem date_valid_mk (y m dd : Nat) :
    (Date.mk y m dd).Valid ↔
      (1 ≤ y ∧ 1 ≤ m ∧ m ≤ 12 ∧ 1 ≤ dd ∧ dd ≤ daysInMonth y m) :=
  Iff.rfl

/-- Projection-free statement of `toOrdinal` on an explicit triple. -/
theorem toOrdinal_mk (y m dd : Nat) :
    toOrdinal ⟨y, m, dd⟩ = daysBeforeYear y + daysBeforeMonth y m + dd :=
  rfl

/-- For a valid date strictly after January 1 of year 1, `predDay` yields a
valid date whose ordinal is one less. -/
theorem predDay_spec (d : Date) (hv : d.Valid) (h2 : 2 ≤ toOrdinal d) :
    (predDay d).Valid ∧ toOrdinal (predDay d) + 1 = toOrdinal d := by
  obtain ⟨y, m, dd⟩ := d
  rw [date_valid_mk] at hv
  obtain ⟨hy, hm1, hm12, hd1, hdm⟩ := hv
  by_cases hday : 2 ≤ dd
  · have hpd : predDay ⟨y, m, dd⟩ = ⟨y, m, dd - 1⟩ := by
      simp [predDay, hday]
    rw [hpd]
    constructor
    · rw [date_valid_mk]
      omega
    · rw [toOrdinal_mk, toOrdinal_mk]
      omega
  · have hdd : dd = 1 := by omega
    subst hdd
    by_cases hmon : 2 ≤ m
    · have hpd : predDay ⟨y, m, 1⟩ = ⟨y, m - 1, daysInMonth y (m - 1)⟩ := by
        simp [predDay, hmon]
      rw [hpd]
      have hpos := daysInMonth_pos y (m - 1)
      have hstep := daysBeforeMonth_add_daysInMonth y (m - 1) (by omega) (by omega)
      have hm' : m - 1 + 1 = m := by omega
      rw [hm'] at hstep
      constructor
      · rw [date_valid_mk]
        omega
      · rw [toOrdinal_mk, toOrdinal_mk]
        omega
    · have hm : m = 1 := by omega
      subst hm
      have hpd : predDay ⟨y, 1, 1⟩ = ⟨y - 1, 12, 31⟩ := by
        simp [predDay]
      rw [hpd]
      have hyy : 2 ≤ y := by
        by_contra hc
        have hy1 : y = 1 := by omega
        subst hy1
        have hord : toOrdinal ⟨1, 1, 1⟩ = 1 := by decide
        omega
      have hsucc := daysBeforeYear_succ (y - 1) (by omega)
      have hy' : y - 1 + 1 = y := by omega
      rw [hy'] at hsucc
      have hd12 : daysInMonth (y - 1) 12 = 31 := by
        simp [daysInMonth]
      have hbm12 : daysBeforeMonth (y - 1) 12 =
          334 + (if isLeap (y - 1) = true then 1 else 0) := by
        simp [daysBeforeMonth, cumDays]
      have hbm1 : daysBeforeMonth y 1 = 0 := by
        simp [daysBeforeMonth, cumDays]
      constructor
      · rw [date_valid_mk, hd12]
        omega
      · rw [toOrdinal_mk, toOrdinal_mk, hbm12, hbm1]
        rcases Classical.em (isLeap (y - 1) = true) with h | h
        · rw [if_pos h] at hsucc ⊢
          omega
        · rw [if_neg h] at hsucc ⊢
          omega

/-- Subtracting `n` days from a valid date with ordinal at least `n + 1`
yields a valid date and subtracts `n` from the ordinal. -/
theorem subDays_spec (n : Nat) (d : Date) (hv : d.Valid) (h : n + 1 ≤ toOrdinal d) :
    (subDays d n).Valid ∧ toOrdinal (subDays d n) + n = toOrdinal d := by
  induction n generalizing d with
  | zero => exact ⟨hv, by simp [subDays]⟩
  | succ k ih =>
    have hpd := predDay_spec d hv (by omega)
    have hih := ih (predDay d) hpd.1 (by omega)
    refine ⟨hih.1, ?_⟩
    simp only [subDays]
    omega

/-- Projection-free statement of `dateLe` on explicit triples. -/
theorem dateLe_mk (y1 m1 d1 y2 m2 d2 : Nat) :
    dateLe ⟨y1, m1, d1⟩ ⟨y2, m2, d2⟩ ↔
      (y1 < y2 ∨ (y1 = y2 ∧ (m1 < m2 ∨ (m1 = m2 ∧ d1 ≤ d2)))) :=
  Iff.rfl

/-- Projection-free statement of `dateLt` on explicit triples. -/
theorem dateLt_mk (y1 m1 d1 y2 m2 d2 : Nat) :
    dateLt ⟨y1, m1, d1⟩ ⟨y2, m2, d2⟩ ↔
      (y1 < y2 ∨ (y1 = y2 ∧ (m1 < m2 ∨ (m1 = m2 ∧ d1 < d2)))) :=
  Iff.rfl

theorem predDay_dateLt (d : Date) (hv : d.Valid) : dateLt (predDay d) d := by
  obtain ⟨y, m, dd⟩ := d
  rw [date_valid_mk] at hv
  by_cases hday : 2 ≤ dd
  · have hpd : predDay ⟨y, m, dd⟩ = ⟨y, m, dd - 1⟩ := by
      simp [predDay, hday]
    rw [hpd, dateLt_mk]
    omega
  · by_cases hmon : 2 ≤ m
    · have hdd : dd = 1 := by omega
      subst hdd
      have hpd : predDay ⟨y, m, 1⟩ = ⟨y, m - 1, daysInMonth y (m - 1)⟩ := by
        simp [predDay, hmon]
      rw [hpd, dateLt_mk]
      omega
    · have hdd : dd = 1 := by omega
      have hm : m = 1 := by omega
      subst hdd; subst hm
      have hpd : predDay ⟨y, 1, 1⟩ = ⟨y - 1, 12, 31⟩ := by
        simp [predDay]
      rw [hpd, dateLt_mk]
      omega

theorem dateLe_trans_lt {a b c : Date} (h1 : dateLe a b) (h2 : dateLt b c) :
    dateLt a c := by
  unfold dateLe at h1
  unfold dateLt at h2 ⊢
  omega

theorem year_mk (y m d : Nat) : (Date.mk y m d).year = y := rfl

theorem month_mk (y m d : Nat) : (Date.mk y m d).month = m := rfl

theorem day_mk (y m d : Nat) : (Date.mk y m d).day = d := rfl

theorem subDays_one (d : Date) : subDays d 1 = predDay d := rfl

/-- Walking `dd` days back from day `dd` of a month lands on the day before
the first of that month. -/
theorem subDays_self_day (y m : Nat) :
    ∀ dd, 1 ≤ dd → subDays ⟨y, m, dd⟩ dd = predDay ⟨y, m, 1⟩ := by
  intro dd
  induction dd with
  | zero => omega
  | succ k ih =>
    intro _
    by_cases hk : 1 ≤ k
    · have h2 : 2 ≤ k + 1 := by omega
      have hpd : predDay ⟨y, m, k + 1⟩ = ⟨y, m, k⟩ := by
        simp [predDay, h2]
      rw [subDays, hpd]
      exact ih hk
    · have hk0 : k = 0 := by omega
      subst hk0
      rw [subDays, subDays]

/-- A valid date of a year past the first has ordinal at least 366. -/
theorem toOrdinal_ge_366 (d : Date) (hv : d.Valid) (hy : 2 ≤ d.year) :
    366 ≤ toOrdinal d := by
  obtain ⟨y, m, dd⟩ := d
  rw [date_valid_mk] at hv
  rw [toOrdinal_mk]
  have h1 := daysBeforeYear_ge y (by simpa using hy)
  omega

/-- Lying between day 1 and day `L` of month `(py, pm)` pins down the year,
month and day of a date. -/
theorem between_same_month (py pm L : Nat) (x : Date)
    (h1 : dateLe ⟨py, pm, 1⟩ x) (h2 : dateLe x ⟨py, pm, L⟩) :
    x.year = py ∧ x.month = pm ∧ 1 ≤ x.day ∧ x.day ≤ L := by
  obtain ⟨a, b, c⟩ := x
  rw [dateLe_mk] at h1 h2
  simp only [year_mk, month_mk, day_mk]
  omega

/-- Conversely, any date of month `(py, pm)` with day between 1 and `L` lies
in that closed interval. -/
theorem same_month_between (py pm L : Nat) (x : Date)
    (h1 : x.year = py) (h2 : x.month = pm) (h3 : 1 ≤ x.day) (h4 : x.day ≤ L) :
    dateLe ⟨py, pm, 1⟩ x ∧ dateLe x ⟨py, pm, L⟩ := by
  obtain ⟨a, b, c⟩ := x
  simp only [year_mk, month_mk, day_mk] at h1 h2 h3 h4
  rw [dateLe_mk, dateLe_mk]
  omega

/-! ### Helper lemmas about filters, sums and deduplication -/

theorem mem_filter_window (a b : Date) (l : List Expense) (r : Expense) :
    r ∈ l.filter (fun e => decide (dateLe a e.date) && decide (dateLe e.date b)) ↔
      (r ∈ l ∧ dateLe a r.date ∧ dateLe r.date b) := by
  simp [List.mem_filter]

theorem sumAmounts_eq (ledger : List Expense) (ns : List Int)
    (h : ledger.map (fun e => parseAmount e.amount) = ns.map some) :
    sumAmounts ledger = some ns.sum := by
  induction ledger generalizing ns with
  | nil =>
    cases ns with
    | nil => simp [sumAmounts]
    | cons n ns' => simp at h
  | cons e rest ih =>
    cases ns with
    | nil => simp at h
    | cons n ns' =>
      simp only [List.map_cons, List.cons.injEq] at h
      obtain ⟨h1, h2⟩ := h
      simp [sumAmounts, h1, ih ns' h2]

theorem sumAmounts_isSome (ledger : List Expense)
    (h : ∀ e ∈ ledger, (parseAmount e.amount).isSome) :
    (sumAmounts ledger).isSome := by
  induction ledger with
  | nil => simp [sumAmounts]
  | cons e rest ih =>
    have h1 := h e (List.mem_cons_self e rest)
    obtain ⟨a, ha⟩ := Option.isSome_iff_exists.mp h1
    have h2 := ih (fun x hx => h x (List.mem_cons_of_mem e hx))
    obtain ⟨t, ht⟩ := Option.isSome_iff_exists.mp h2
    simp [sumAmounts, ha, ht]

theorem totalByMonthAux_isSome (m : Nat) (ledger : List Expense)
    (h : ∀ e ∈ ledger, (parseAmount e.amount).isSome) :
    (totalByMonthAux m ledger).isSome := by
  induction ledger with
  | nil => simp [totalByMonthAux]
  | cons e rest ih =>
    have h1 := h e (List.mem_cons_self e rest)
    obtain ⟨a, ha⟩ := Option.isSome_iff_exists.mp h1
    have h2 := ih (fun x hx => h x (List.mem_cons_of_mem e hx))
    obtain ⟨p, hp⟩ := Option.isSome_iff_exists.mp h2
    by_cases hm : e.date.month = m
    · simp [totalByMonthAux, hm, ha, hp]
    · simp [totalByMonthAux, hm, hp]

theorem totalByMonthAux_eq (m : Nat) (ledger : List Expense) (ns : List Int)
    (h : (ledger.filter (fun e => e.date.month == m)).map
        (fun e => parseAmount e.amount) = ns.map some) :
    totalByMonthAux m ledger =
      some (ns.sum,
        strRepeat (monthName m)
          (ledger.filter (fun e => e.date.month == m)).length) := by
  induction ledger generalizing ns with
  | nil =>
    cases ns with
    | nil => simp [totalByMonthAux, strRepeat]
    | cons n ns' => simp at h
  | cons e rest ih =>
    by_cases hm : e.date.month = m
    · have hf : (e :: rest).filter (fun e => e.date.month == m) =
          e :: rest.filter (fun e => e.date.month == m) := by
        simp [List.filter_cons, hm]
      rw [hf] at h
      cases ns with
      | nil => simp at h
      | cons n ns' =>
        simp only [List.map_cons, List.cons.injEq] at h
        obtain ⟨h1, h2⟩ := h
        rw [hf]
        simp [totalByMonthAux, hm, h1, ih ns' h2, strRepeat]
    · have hf : (e :: rest).filter (fun e => e.date.month == m) =
          rest.filter (fun e => e.date.month == m) := by
        simp [List.filter_cons, hm]
      rw [hf] at h
      rw [hf]
      simp [totalByMonthAux, hm, ih ns h]

theorem dedupCharsAux_of_seen (seen ys : List Char) (h : ∀ c ∈ ys, c ∈ seen) :
    dedupCharsAux seen ys = [] := by
  induction ys with
  | nil => rfl
  | cons c cs ih =>
    have hc : c ∈ seen := h c (List.mem_cons_self c cs)
    simp only [dedupCharsAux, if_pos hc]
    exact ih (fun x hx => h x (List.mem_cons_of_mem c hx))

theorem dedupCharsAux_append_absorb (xs : List Char) :
    ∀ (seen ys : List Char), (∀ c ∈ ys, c ∈ xs ∨ c ∈ seen) →
      dedupCharsAux seen (xs ++ ys) = dedupCharsAux seen xs := by
  induction xs with
  | nil =>
    intro seen ys h
    have h' : ∀ c ∈ ys, c ∈ seen := by
      intro c hc
      rcases h c hc with h1 | h1
      · exact absurd h1 (List.not_mem_nil c)
      · exact h1
    simpa using dedupCharsAux_of_seen seen ys h'
  | cons x xs ih =>
    intro seen ys h
    by_cases hx : x ∈ seen
    · simp only [List.cons_append, dedupCharsAux, if_pos hx]
      refine ih seen ys ?_
      intro c hc
      rcases h c hc with h1 | h1
      · rcases List.mem_cons.mp h1 with h2 | h2
        · subst h2; exact Or.inr hx
        · exact Or.inl h2
      · exact Or.inr h1
    · simp only [List.cons_append, dedupCharsAux, if_neg hx]
      congr 1
      show dedupCharsAux (x :: seen) (xs ++ ys) = dedupCharsAux (x :: seen) xs
      refine ih (x :: seen) ys ?_
      intro c hc
      rcases h c hc with h1 | h1
      · rcases List.mem_cons.mp h1 with h2 | h2
        · subst h2; exact Or.inr (List.mem_cons_self _ _)
        · exact Or.inl h2
      · exact Or.inr (List.mem_cons_of_mem x h1)

theorem string_toList_append (s t : String) :
    (s ++ t).toList = s.toList ++ t.toList :=
  rfl

theorem strRepeat_chars (s : String) (k : Nat) :
    ∀ c ∈ (strRepeat s k).toList, c ∈ s.toList := by
  induction k with
  | zero => intro c hc; simp [strRepeat] at hc
  | succ j ih =>
    intro c hc
    rw [strRepeat] at hc
    rw [string_toList_append] at hc
    rcases List.mem_append.mp hc with h | h
    · exact h
    · exact ih c h

/-- Deduplicating one or more concatenated copies of a string deduplicates a
single copy. -/
theorem dedupStr_repeat (s : String) (k : Nat) :
    dedupStr (strRepeat s (k + 1)) = dedupStr s := by
  unfold dedupStr
  rw [strRepeat, string_toList_append]
  rw [dedupCharsAux_append_absorb s.toList [] (strRepeat s k).toList ?_]
  intro c hc
  exact Or.inl (strRepeat_chars s k c hc)

/-- Extensional answer of `past_week`: a record is returned exactly when it
lies in the window (the message bodies return no records, and are produced
exactly when no record lies in the window). -/
theorem mem_past_week_toRecords (today : Date) (ledger : List Expense)
    (r : Expense) :
    r ∈ (past_week today ledger).toRecords ↔
      (r ∈ ledger ∧ dateLe (prev_week_start today) r.date ∧
        dateLe r.date (prev_week_end today)) := by
  unfold past_week
  by_cases hle : ledger.isEmpty
  · rw [if_pos hle]
    have hnil : ledger = [] := List.isEmpty_iff.mp hle
    subst hnil
    simp [QueryResp.toRecords]
  · rw [if_neg hle]
    by_cases hfe : (week_window_filter today ledger).isEmpty
    · rw [if_pos hfe]
      have hnil : week_window_filter today ledger = [] := List.isEmpty_iff.mp hfe
      constructor
      · intro hr
        simp [QueryResp.toRecords] at hr
      · intro hr
        have hmem : r ∈ week_window_filter today ledger :=
          (mem_filter_window _ _ _ _).mpr hr
        rw [hnil] at hmem
        simp at hmem
    · rw [if_neg hfe]
      simp only [QueryResp.toRecords]
      exact mem_filter_window _ _ _ r

/-- Extensional answer of `past_month`, as for `past_week`. -/
theorem mem_past_month_toRecords (today : Date) (ledger : List Expense)
    (r : Expense) :
    r ∈ (past_month today ledger).toRecords ↔
      (r ∈ ledger ∧ dateLe (prev_month_start today) r.date ∧
        dateLe r.date (prev_month_end today)) := by
  unfold past_month
  by_cases hle : ledger.isEmpty
  · rw [if_pos hle]
    have hnil : ledger = [] := List.isEmpty_iff.mp hle
    subst hnil
    simp [QueryResp.toRecords]
  · rw [if_neg hle]
    by_cases hfe : (month_window_filter today ledger).isEmpty
    · rw [if_pos hfe]
      have hnil : month_window_filter today ledger = [] := List.isEmpty_iff.mp hfe
      constructor
      · intro hr
        simp [QueryResp.toRecords] at hr
      · intro hr
        have hmem : r ∈ month_window_filter today ledger :=
          (mem_filter_window _ _ _ _).mpr hr
        rw [hnil] at hmem
        simp at hmem
    · rw [if_neg hfe]
      simp only [QueryResp.toRecords]
      exact mem_filter_window _ _ _ r

/-! ### Claims -/

/-- Claim C1, counterexample: `by_range` does not return the matching records
for every ledger — on the empty ledger (where the matching set is empty and
the claimed answer is the empty list) `custom_date` raises instead of
returning. -/
theorem custom_date_empty_ledger_cex :
    custom_date ⟨2024, 1, 1⟩ ⟨2024, 12, 31⟩ ([] : List Expense) ≠
      Except.ok [] := by
  intro h
  simp [custom_date] at h

/-- Claim C1, amended: for every NONEMPTY ledger and every pair of bounds,
`by_range(start, end)` succeeds and returns exactly the records `r` with
`start ≤ r.date ≤ end`, inclusive on both bounds, regardless of the record's
owner, and excludes all others. -/
theorem custom_date_by_range_spec (start finish : Date) (ledger : List Expense)
    (hne : ledger ≠ []) :
    custom_date start finish ledger =
        Except.ok (ledger.filter (fun r =>
          decide (dateLe start r.date) && decide (dateLe r.date finish)))
    ∧ ∀ r, (r ∈ ledger.filter (fun r =>
          decide (dateLe start r.date) && decide (dateLe r.date finish)) ↔
        (r ∈ ledger ∧ dateLe start r.date ∧ dateLe r.date finish)) := by
  constructor
  · unfold custom_date
    simp [hne]
  · intro r
    exact mem_filter_window start finish ledger r

/-- Witness for the amended claim C1 at a concrete nonempty ledger. -/
theorem custom_date_by_range_spec_witness :
    (([⟨1, ⟨2024, 6, 1⟩, "rent", "$700", 1, "house"⟩] : List Expense) ≠ [])
    ∧ custom_date ⟨2024, 1, 1⟩ ⟨2024, 12, 31⟩
        [⟨1, ⟨2024, 6, 1⟩, "rent", "$700", 1, "house"⟩] =
          Except.ok [⟨1, ⟨2024, 6, 1⟩, "rent", "$700", 1, "house"⟩] := by
  constructor
  · decide
  · exact ((custom_date_by_range_spec ⟨2024, 1, 1⟩ ⟨2024, 12, 31⟩
      [⟨1, ⟨2024, 6, 1⟩, "rent", "$700", 1, "house"⟩] (by decide)).1).trans rfl

/-- Claim C2: for every ledger whose stored amounts all parse as currency
prefixed integers (pointwise values `ns`), `total()` returns the exact
integer sum of all amounts across all owners, re-prefixed with the currency
symbol. -/
theorem total_sums_amounts (ledger : List Expense) (ns : List Int)
    (h : ledger.map (fun e => parseAmount e.amount) = ns.map some) :
    total ledger = some ("$" ++ toString ns.sum) := by
  unfold total
  rw [sumAmounts_eq ledger ns h]
  rfl

/-- Witness for claim C2: amounts `$10`, `$5`, `$-3` total to `$12`. -/
theorem total_sums_amounts_witness :
    (([⟨1, ⟨2024, 1, 1⟩, "groceries", "$10", 1, "food"⟩,
       ⟨2, ⟨2024, 1, 2⟩, "taxi", "$5", 1, "transport"⟩,
       ⟨3, ⟨2024, 1, 3⟩, "refund", "$-3", 2, "food"⟩] : List Expense).map
        (fun e => parseAmount e.amount) = ([10, 5, -3] : List Int).map some)
    ∧ total [⟨1, ⟨2024, 1, 1⟩, "groceries", "$10", 1, "food"⟩,
       ⟨2, ⟨2024, 1, 2⟩, "taxi", "$5", 1, "transport"⟩,
       ⟨3, ⟨2024, 1, 3⟩, "refund", "$-3", 2, "food"⟩] = some "$12" := by
  constructor
  · decide
  · exact (total_sums_amounts _ [10, 5, -3] (by decide)).trans (by decide)

/-- Claim C3, counterexample: the summary of `total_by_month` does not carry
the deduplicated month NAME — `dict.fromkeys` deduplicates the characters of
the concatenated names, so a single January record reports the name
`"Janury"`, which is not January's name. -/
theorem total_by_month_january_cex :
    total_by_month 1 [⟨1, ⟨2024, 1, 15⟩, "groceries", "$100", 1, "food"⟩] =
        some "Total expense for Janury: $100"
    ∧ "Janury" ≠ monthName 1 := by
  constructor
  · rfl
  · decide

/-- Claim C3, amended: for every ledger and month number 1-12 whose matching
amounts parse pointwise to `ns`, `total_by_month` sums exactly the amounts of
the records whose month component matches, across all years and owners, and
the summary carries the character-deduplicated concatenation of the month
names encountered — `dedupStr (monthName m)` when any record matches (equal
to the month name itself only when the name has no repeated letters, e.g.
`"March"`), empty otherwise. -/
theorem total_by_month_spec (m : Nat) (ledger : List Expense) (ns : List Int)
    (_hm1 : 1 ≤ m) (_hm12 : m ≤ 12)
    (h : (ledger.filter (fun e => e.date.month == m)).map
        (fun e => parseAmount e.amount) = ns.map some) :
    total_by_month m ledger =
      some ("Total expense for " ++
        (if (ledger.filter (fun e => e.date.month == m)).isEmpty then ""
          else dedupStr (monthName m)) ++ ": $" ++ toString ns.sum) := by
  unfold total_by_month
  rw [totalByMonthAux_eq m ledger ns h]
  cases hl : ledger.filter (fun e => e.date.month == m) with
  | nil => simp [strRepeat, dedupStr, dedupCharsAux]
  | cons x xs => simp [dedupStr_repeat]

/-- Witness for the amended claim C3: March records of different years and
owners (`$100` in 2024, `$50` in 2023) sum to `$150` under the name
`"March"`. -/
theorem total_by_month_spec_witness :
    ((([⟨1, ⟨2024, 3, 15⟩, "a", "$100", 1, "food"⟩,
        ⟨2, ⟨2023, 3, 1⟩, "b", "$50", 2, "food"⟩] : List Expense).filter
        (fun e => e.date.month == 3)).map (fun e => parseAmount e.amount) =
      ([100, 50] : List Int).map some)
    ∧ total_by_month 3
        [⟨1, ⟨2024, 3, 15⟩, "a", "$100", 1, "food"⟩,
         ⟨2, ⟨2023, 3, 1⟩, "b", "$50", 2, "food"⟩] =
        some "Total expense for March: $150" := by
  constructor
  · decide
  · exact (total_by_month_spec 3 _ [100, 50] (by decide) (by decide)
      (by decide)).trans (by decide)

/-- Claim C6: `update()` and `delete()` called by a caller who is not the
record's owner both answer the forbidden result and leave the ledger — the
record, all its fields, and its presence — unchanged. -/
theorem update_delete_non_owner_forbidden (ledger : List Expense)
    (caller eid : Nat) (desc amt : String) (e : Expense)
    (hfind : ledger.find? (fun x => x.id == eid) = some e)
    (howner : e.userId ≠ caller) :
    update caller eid desc amt ledger = (UpdateResp.forbidden, ledger)
    ∧ delete caller eid ledger = (DeleteResp.forbidden, ledger) := by
  constructor
  · unfold update
    rw [hfind]
    simp [howner]
  · unfold delete
    rw [hfind]
    simp [howner]

/-- Witness for claim C6: user 2 can neither update nor delete user 1's
expense. -/
theorem update_delete_non_owner_forbidden_witness :
    (([⟨1, ⟨2024, 1, 1⟩, "x", "$1", 1, "misc"⟩] : List Expense).find?
        (fun x => x.id == 1) = some ⟨1, ⟨2024, 1, 1⟩, "x", "$1", 1, "misc"⟩)
    ∧ ((⟨1, ⟨2024, 1, 1⟩, "x", "$1", 1, "misc"⟩ : Expense).userId ≠ 2)
    ∧ update 2 1 "y" "$9" [⟨1, ⟨2024, 1, 1⟩, "x", "$1", 1, "misc"⟩] =
        (UpdateResp.forbidden, [⟨1, ⟨2024, 1, 1⟩, "x", "$1", 1, "misc"⟩])
    ∧ delete 2 1 [⟨1, ⟨2024, 1, 1⟩, "x", "$1", 1, "misc"⟩] =
        (DeleteResp.forbidden, [⟨1, ⟨2024, 1, 1⟩, "x", "$1", 1, "misc"⟩]) := by
  refine ⟨by decide, by decide, ?_, ?_⟩
  · exact (update_delete_non_owner_forbidden _ 2 1 "y" "$9"
      ⟨1, ⟨2024, 1, 1⟩, "x", "$1", 1, "misc"⟩ (by decide) (by decide)).1
  · exact (update_delete_non_owner_forbidden _ 2 1 "y" "$9"
      ⟨1, ⟨2024, 1, 1⟩, "x", "$1", 1, "misc"⟩ (by decide) (by decide)).2

/-- Claim C7: registering with an email already present in the store fails
with the uniqueness-conflict error and stores nothing, so a second `User`
with that email is never created. -/
theorem register_duplicate_email_conflict (hash : String → String)
    (name email password : String) (users : List User) (newId : Nat)
    (h : ∃ u ∈ users, u.email = email) :
    register hash name email password users newId =
      Except.error DbError.uniqueViolation := by
  unfold register
  have hx : users.any (fun u => u.email == email) = true := by
    obtain ⟨u, hu, he⟩ := h
    exact List.any_eq_true.mpr ⟨u, hu, by simp [he]⟩
  simp [hx]

/-- Witness for claim C7 on a store already holding `ann@example.com`. -/
theorem register_duplicate_email_conflict_witness :
    (∃ u ∈ ([⟨1, "Ann", "ann@example.com", "h1"⟩] : List User),
        u.email = "ann@example.com")
    ∧ register (fun s => s) "Ann2" "ann@example.com" "pw"
        [⟨1, "Ann", "ann@example.com", "h1"⟩] 2 =
          Except.error DbError.uniqueViolation := by
  refine ⟨⟨⟨1, "Ann", "ann@example.com", "h1"⟩, by decide, rfl⟩, ?_⟩
  exact register_duplicate_email_conflict (fun s => s) "Ann2" "ann@example.com"
    "pw" [⟨1, "Ann", "ann@example.com", "h1"⟩] 2
    ⟨⟨1, "Ann", "ann@example.com", "h1"⟩, by decide, rfl⟩

/-- Claim C8 (code bug): `login` with an absent email is claimed to answer an
authentication failure, but the code evaluates `user.id` on the `None`
lookup result and crashes with `AttributeError`; with a present email and a
wrong password it does answer the invalid-credentials body. -/
theorem login_absent_email_crash :
    login (fun _ _ => false) "a@example.com" "pw" [] =
        Except.error "AttributeError: NoneType has no attribute id"
    ∧ login (fun stored pw => stored == pw) "b@example.com" "wrong"
        [⟨1, "Bob", "b@example.com", "right"⟩] = Except.ok LoginResp.invalid := by
  constructor
  · rfl
  · rfl

/-- Claim C9 (code bug): with a nonempty ledger and no record in the bounds
the by-range query does answer the empty list as a success, but on the empty
ledger it is claimed to do the same and instead crashes with the pandas
`KeyError`. -/
theorem custom_date_empty_ledger_crash :
    custom_date ⟨2023, 5, 1⟩ ⟨2023, 5, 31⟩ ([] : List Expense) =
        Except.error "KeyError: date"
    ∧ custom_date ⟨2023, 5, 1⟩ ⟨2023, 5, 31⟩
        [⟨1, ⟨2020, 1, 1⟩, "old", "$5", 1, "misc"⟩] = Except.ok [] := by
  constructor
  · rfl
  · rfl

/-- Claim C10: the totals are failure-free exactly under the precondition
that every stored amount parses as a currency-prefixed integer, and since
`add` stores any amount string unchecked there is a reachable ledger — one
`add` with amount `"abc"` from the empty state — on which `total` fails. -/
theorem total_partiality :
    (∀ ledger : List Expense,
        (∀ e ∈ ledger, (parseAmount e.amount).isSome) →
          (total ledger).isSome ∧ ∀ m, (total_by_month m ledger).isSome)
    ∧ total (add 1 ⟨2024, 1, 15⟩ "lunch" "abc" "food" ⟨[], [], 1, 1⟩).2.expenses =
        none := by
  constructor
  · intro ledger h
    constructor
    · obtain ⟨t, ht⟩ := Option.isSome_iff_exists.mp (sumAmounts_isSome ledger h)
      simp [total, ht]
    · intro m
      obtain ⟨p, hp⟩ := Option.isSome_iff_exists.mp (totalByMonthAux_isSome m ledger h)
      simp [total_by_month, hp]
  · rfl

/-- Witness for claim C10's precondition half on a well-formed ledger. -/
theorem total_partiality_witness :
    (∀ e ∈ ([⟨1, ⟨2024, 1, 1⟩, "groceries", "$10", 1, "food"⟩] : List Expense),
        (parseAmount e.amount).isSome)
    ∧ (total [⟨1, ⟨2024, 1, 1⟩, "groceries", "$10", 1, "food"⟩]).isSome :=
  ⟨by decide, (total_partiality.1 _ (by decide)).1⟩

/-- Claim C4: for every ledger and current date, `past_week()` returns
exactly the records whose date lies in the inclusive window
`[prev_week_start, prev_week_end]`; those bounds are computed from the
current date alone, `prev_week_start` is the Monday seven days before the
Monday of the current week, `prev_week_end` is the Sunday immediately before
the Monday of the current week, and no record of the current (incomplete)
week is returned. -/
theorem past_week_spec (today : Date) (ledger : List Expense)
    (hv : today.Valid) (hy : 2 ≤ today.year) :
    (∀ r, r ∈ (past_week today ledger).toRecords ↔
        (r ∈ ledger ∧ dateLe (prev_week_start today) r.date ∧
          dateLe r.date (prev_week_end today)))
    ∧ weekday (prev_week_start today) = 0
    ∧ weekday (prev_week_end today) = 6
    ∧ weekday (start_of_this_week today) = 0
    ∧ toOrdinal (prev_week_start today) + 7 = toOrdinal (start_of_this_week today)
    ∧ toOrdinal (prev_week_end today) + 1 = toOrdinal (start_of_this_week today)
    ∧ ∀ r, r ∈ (past_week today ledger).toRecords →
        dateLt r.date (start_of_this_week today) := by
  have hT : 366 ≤ toOrdinal today := toOrdinal_ge_366 today hv hy
  have hwdef : weekday today = (toOrdinal today + 6) % 7 := rfl
  have hw : weekday today < 7 := Nat.mod_lt _ (by omega)
  have h1 := subDays_spec (weekday today) today hv (by omega)
  have v1 : (start_of_this_week today).Valid := h1.1
  have e1 : toOrdinal (start_of_this_week today) + weekday today =
      toOrdinal today := h1.2
  have h2 := subDays_spec 7 (start_of_this_week today) v1 (by omega)
  have e2 : toOrdinal (prev_week_start today) + 7 =
      toOrdinal (start_of_this_week today) := h2.2
  have h3 := subDays_spec 1 (start_of_this_week today) v1 (by omega)
  have e3 : toOrdinal (prev_week_end today) + 1 =
      toOrdinal (start_of_this_week today) := h3.2
  refine ⟨fun r => mem_past_week_toRecords today ledger r, ?_, ?_, ?_, e2, e3, ?_⟩
  · show (toOrdinal (prev_week_start today) + 6) % 7 = 0
    omega
  · show (toOrdinal (prev_week_end today) + 6) % 7 = 6
    omega
  · show (toOrdinal (start_of_this_week today) + 6) % 7 = 0
    omega
  · intro r hr
    have hle := ((mem_past_week_toRecords today ledger r).mp hr).2.2
    have hlt : dateLt (predDay (start_of_this_week today))
        (start_of_this_week today) := predDay_dateLt _ v1
    exact dateLe_trans_lt hle hlt

/-- Witness for claim C4 on 2024-03-15 (a Friday): the previous-week window
starts on a Monday and the single returned record predates the current
week. -/
theorem past_week_spec_witness :
    Date.Valid ⟨2024, 3, 15⟩ ∧ 2 ≤ (⟨2024, 3, 15⟩ : Date).year
    ∧ weekday (prev_week_start ⟨2024, 3, 15⟩) = 0
    ∧ (∀ r, r ∈ (past_week ⟨2024, 3, 15⟩
        [⟨1, ⟨2024, 3, 5⟩, "coffee", "$4", 1, "food"⟩]).toRecords →
        dateLt r.date (start_of_this_week ⟨2024, 3, 15⟩)) := by
  refine ⟨by decide, by decide, ?_, ?_⟩
  · exact (past_week_spec ⟨2024, 3, 15⟩
      [⟨1, ⟨2024, 3, 5⟩, "coffee", "$4", 1, "food"⟩] (by decide) (by decide)).2.1
  · exact (past_week_spec ⟨2024, 3, 15⟩
      [⟨1, ⟨2024, 3, 5⟩, "coffee", "$4", 1, "food"⟩]
      (by decide) (by decide)).2.2.2.2.2.2

/-- Claim C5: for every ledger and current date, `past_month()` returns
exactly the records whose date lies in the inclusive window
`[prev_month_start, prev_month_end]`; `prev_month_end` is the day before the
first day of the current calendar month, `prev_month_start` is the first day
of the previous calendar month, every returned record belongs to the
previous calendar month, every valid date of the previous calendar month
lies in the window (the month is covered in full), and no record of the
current month is returned. -/
theorem past_month_spec (today : Date) (ledger : List Expense)
    (hv : today.Valid) (hy : 2 ≤ today.year) :
    prev_month_end today = predDay ⟨today.year, today.month, 1⟩
    ∧ prev_month_start today =
        (if 2 ≤ today.month then (⟨today.year, today.month - 1, 1⟩ : Date)
          else ⟨today.year - 1, 12, 1⟩)
    ∧ (∀ r, r ∈ (past_month today ledger).toRecords ↔
        (r ∈ ledger ∧ dateLe (prev_month_start today) r.date ∧
          dateLe r.date (prev_month_end today)))
    ∧ (∀ r, r ∈ (past_month today ledger).toRecords →
        (r.date.year = (prev_month_start today).year ∧
          r.date.month = (prev_month_start today).month))
    ∧ (∀ x : Date, x.Valid → x.year = (prev_month_start today).year →
        x.month = (prev_month_start today).month →
        (dateLe (prev_month_start today) x ∧ dateLe x (prev_month_end today)))
    ∧ (∀ r, r ∈ (past_month today ledger).toRecords →
        ¬ (r.date.year = today.year ∧ r.date.month = today.month)) := by
  obtain ⟨y, m, dd⟩ := today
  rw [date_valid_mk] at hv
  simp only [year_mk, month_mk, day_mk] at hy ⊢
  have hmem := fun r => mem_past_month_toRecords ⟨y, m, dd⟩ ledger r
  have h_end : prev_month_end ⟨y, m, dd⟩ = predDay ⟨y, m, 1⟩ := by
    show subDays ⟨y, m, dd⟩ ((Date.mk y m dd).day) = predDay ⟨y, m, 1⟩
    rw [day_mk]
    exact subDays_self_day y m dd (by omega)
  by_cases hm : 2 ≤ m
  · have hpd : predDay ⟨y, m, 1⟩ = ⟨y, m - 1, daysInMonth y (m - 1)⟩ := by
      simp [predDay, hm]
    have hpme : prev_month_end ⟨y, m, dd⟩ = ⟨y, m - 1, daysInMonth y (m - 1)⟩ :=
      h_end.trans hpd
    have h_start : prev_month_start ⟨y, m, dd⟩ = ⟨y, m - 1, 1⟩ := by
      unfold prev_month_start
      rw [hpme, year_mk, month_mk]
    have hprev : ∀ r, r ∈ (past_month ⟨y, m, dd⟩ ledger).toRecords →
        (r.date.year = y ∧ r.date.month = m - 1) := by
      intro r hr
      obtain ⟨_, hx1, hx2⟩ := (hmem r).mp hr
      rw [h_start] at hx1
      rw [hpme] at hx2
      have hb := between_same_month y (m - 1) (daysInMonth y (m - 1)) r.date hx1 hx2
      exact ⟨hb.1, hb.2.1⟩
    refine ⟨h_end, ?_, hmem, ?_, ?_, ?_⟩
    · rw [if_pos hm]
      exact h_start
    · intro r hr
      rw [h_start, year_mk, month_mk]
      exact hprev r hr
    · intro x hxv hxy hxm
      simp only [h_start, year_mk, month_mk] at hxy hxm
      obtain ⟨_, _, _, hd1, hd2⟩ := hxv
      rw [hxy, hxm] at hd2
      rw [h_start, hpme]
      exact same_month_between y (m - 1) (daysInMonth y (m - 1)) x hxy hxm hd1 hd2
    · intro r hr hcur
      have hp := hprev r hr
      omega
  · have hm1 : m = 1 := by omega
    subst hm1
    have hpd : predDay ⟨y, 1, 1⟩ = ⟨y - 1, 12, 31⟩ := by
      simp [predDay]
    have hpme : prev_month_end ⟨y, 1, dd⟩ = ⟨y - 1, 12, 31⟩ := h_end.trans hpd
    have h_start : prev_month_start ⟨y, 1, dd⟩ = ⟨y - 1, 12, 1⟩ := by
      unfold prev_month_start
      rw [hpme, year_mk, month_mk]
    have hd12 : daysInMonth (y - 1) 12 = 31 := by
      simp [daysInMonth]
    have hprev : ∀ r, r ∈ (past_month ⟨y, 1, dd⟩ ledger).toRecords →
        (r.date.year = y - 1 ∧ r.date.month = 12) := by
      intro r hr
      obtain ⟨_, hx1, hx2⟩ := (hmem r).mp hr
      rw [h_start] at hx1
      rw [hpme] at hx2
      have hb := between_same_month (y - 1) 12 31 r.date hx1 hx2
      exact ⟨hb.1, hb.2.1⟩
    have h21 : ¬ (2 ≤ (1 : Nat)) := by omega
    refine ⟨h_end, ?_, hmem, ?_, ?_, ?_⟩
    · rw [if_neg h21]
      exact h_start
    · intro r hr
      rw [h_start, year_mk, month_mk]
      exact hprev r hr
    · intro x hxv hxy hxm
      simp only [h_start, year_mk, month_mk] at hxy hxm
      obtain ⟨_, _, _, hd1, hd2⟩ := hxv
      rw [hxy, hxm, hd12] at hd2
      rw [h_start, hpme]
      exact same_month_between (y - 1) 12 31 x hxy hxm hd1 hd2
    · intro r hr hcur
      have hp := hprev r hr
      omega

/-- Witness for claim C5 on 2024-03-15: the window is exactly February 2024
and the single February record is returned while nothing of March is. -/
theorem past_month_spec_witness :
    Date.Valid ⟨2024, 3, 15⟩ ∧ 2 ≤ (⟨2024, 3, 15⟩ : Date).year
    ∧ prev_month_end ⟨2024, 3, 15⟩ = predDay ⟨2024, 3, 1⟩
    ∧ (∀ r, r ∈ (past_month ⟨2024, 3, 15⟩
        [⟨1, ⟨2024, 2, 10⟩, "gas", "$30", 1, "car"⟩]).toRecords →
        ¬ (r.date.year = 2024 ∧ r.date.month = 3)) := by
  refine ⟨by decide, by decide, ?_, ?_⟩
  · exact (past_month_spec ⟨2024, 3, 15⟩
      [⟨1, ⟨2024, 2, 10⟩, "gas", "$30", 1, "car"⟩] (by decide) (by decide)).1
  · exact (past_month_spec ⟨2024, 3, 15⟩
      [⟨1, ⟨2024, 2, 10⟩, "gas", "$30", 1, "car"⟩]
      (by decide) (by decide)).2.2.2.2.2

end ExpenseApi
